import Mathlib

/-!
# Verification of the `bigfloat` hypercomplex algebra library

A shallow embedding of the Go package `bigfloat` (Complex, Perplex, Infra
rank-1 algebras and Hamilton, Cockle, Supra rank-2 algebras over an
arbitrary-precision scalar).  The scalar `big.Float` is modelled by `ℚ`,
following the ScalarField contract (exact add/sub/mul/div/neg/compare).
Each Go method that writes its result into a fresh receiver is modelled by a
pure function computing the same component formulas in the same order;
methods that panic are modelled with `Except DomainError`.
-/

namespace Bigfloat

/-- The two domain-error kinds of the library: panic "zero inverse" /
"zero denominator" (division by the exact zero value) and panic
"zero divisor inverse" / "zero divisor denominator". -/
inductive DomainError where
  | divideByZero : DomainError
  | zeroDivisor : DomainError
deriving DecidableEq, Repr

/-- `Complex` from complex.go: two `big.Float` fields `l`, `r`. -/
structure Cx where
  l : ℚ
  r : ℚ
deriving DecidableEq, Repr

namespace Cx

/-- `new(Complex)`: the zero value. -/
def zero : Cx := ⟨0, 0⟩

/-- `Complex.Equals`: componentwise `Cmp == 0`. -/
def Equals (z y : Cx) : Bool := z.l == y.l && z.r == y.r

/-- `Complex.Scal`: componentwise scaling. -/
def Scal (y : Cx) (a : ℚ) : Cx := ⟨y.l * a, y.r * a⟩

/-- `Complex.Neg`. -/
def Neg (y : Cx) : Cx := ⟨-y.l, -y.r⟩

/-- `Complex.Conj`. -/
def Conj (y : Cx) : Cx := ⟨y.l, -y.r⟩

/-- `Complex.Add`. -/
def Add (x y : Cx) : Cx := ⟨x.l + y.l, x.r + y.r⟩

/-- `Complex.Sub`. -/
def Sub (x y : Cx) : Cx := ⟨x.l - y.l, x.r - y.r⟩

/-- `Complex.Mul` with a fresh receiver: with a=x.l, b=x.r, c=y.l, d=y.r the
code computes `z.l = a*c - d*b` and `z.r = d*a + b*c`. -/
def Mul (x y : Cx) : Cx :=
  ⟨x.l * y.l - y.r * x.r, y.r * x.l + x.r * y.l⟩

/-- `Complex.Quad`: `l*l + r*r`. -/
def Quad (z : Cx) : ℚ := z.l * z.l + z.r * z.r

/-- The value computed by `Complex.Inv` past its zero check:
`Conj(y)` with both components divided by `Quad(y)`. -/
def invVal (y : Cx) : Cx := ⟨y.l / Quad y, -y.r / Quad y⟩

/-- `Complex.Inv`: panics ("zero inverse") iff `y` equals the zero value. -/
def Inv (y : Cx) : Except DomainError Cx :=
  if Equals y zero then .error .divideByZero else .ok (invVal y)

/-- `Complex.Quo` with a fresh receiver: after the zero check it computes
`Mul(x, Conj(y))` and divides each component by `Quad(y)`. -/
def Quo (x y : Cx) : Except DomainError Cx :=
  if Equals y zero then .error .divideByZero
  else .ok ⟨(Mul x (Conj y)).l / Quad y, (Mul x (Conj y)).r / Quad y⟩

/-- `Complex.Quo` executed with its receiver `z` aliasing the input `x`
(same storage): `z.Conj(y)` overwrites `x` with `Conj(y)` before
`z.Mul(x, z)` snapshots its operands, so the product read is
`Mul(Conj(y), Conj(y))`, not `Mul(x, Conj(y))`. -/
def quoAliasX (_x y : Cx) : Except DomainError Cx :=
  if Equals y zero then .error .divideByZero
  else .ok ⟨(Mul (Conj y) (Conj y)).l / Quad y, (Mul (Conj y) (Conj y)).r / Quad y⟩

end Cx

/-- `Perplex` from infra.go (second half of the file): fields `l`, `r`. -/
structure Perplex where
  l : ℚ
  r : ℚ
deriving DecidableEq, Repr

namespace Perplex

/-- `new(Perplex)`: the zero value. -/
def zero : Perplex := ⟨0, 0⟩

/-- `Perplex.Equals`. -/
def Equals (z y : Perplex) : Bool := z.l == y.l && z.r == y.r

/-- `Perplex.Scal`. -/
def Scal (y : Perplex) (a : ℚ) : Perplex := ⟨y.l * a, y.r * a⟩

/-- `Perplex.Neg`. -/
def Neg (y : Perplex) : Perplex := ⟨-y.l, -y.r⟩

/-- `Perplex.Conj`. -/
def Conj (y : Perplex) : Perplex := ⟨y.l, -y.r⟩

/-- `Perplex.Add`. -/
def Add (x y : Perplex) : Perplex := ⟨x.l + y.l, x.r + y.r⟩

/-- `Perplex.Sub`. -/
def Sub (x y : Perplex) : Perplex := ⟨x.l - y.l, x.r - y.r⟩

/-- `Perplex.Mul`: `z.l = a*c + d*b`, `z.r = d*a + b*c`. -/
def Mul (x y : Perplex) : Perplex :=
  ⟨x.l * y.l + y.r * x.r, y.r * x.l + x.r * y.l⟩

/-- `Perplex.Quad`: `l*l - r*r`. -/
def Quad (z : Perplex) : ℚ := z.l * z.l - z.r * z.r

/-- `Perplex.IsZeroDiv`: true iff `l = r` or `l = -r`. -/
def IsZeroDiv (z : Perplex) : Bool := z.l == z.r || z.l == -z.r

/-- The value computed by `Perplex.Inv` past its zero-divisor check. -/
def invVal (y : Perplex) : Perplex := ⟨y.l / Quad y, -y.r / Quad y⟩

/-- `Perplex.Inv`: panics ("zero divisor inverse") iff `IsZeroDiv(y)`. -/
def Inv (y : Perplex) : Except DomainError Perplex :=
  if IsZeroDiv y then .error .zeroDivisor else .ok (invVal y)

/-- `Perplex.Quo` with a fresh receiver. -/
def Quo (x y : Perplex) : Except DomainError Perplex :=
  if IsZeroDiv y then .error .zeroDivisor
  else .ok ⟨(Mul x (Conj y)).l / Quad y, (Mul x (Conj y)).r / Quad y⟩

/-- `Perplex.Idempotent`: sets `l` to 0.5 and `r` to -0.5 when `sign < 0`,
otherwise `r` to 0.5.  (`SetFloat64(0.5)` is exact.) -/
def Idempotent (sign : ℤ) : Perplex :=
  if sign < 0 then ⟨1/2, -1/2⟩ else ⟨1/2, 1/2⟩

end Perplex

/-- `Infra` from infra.go (first half of the file): fields `l`, `r`. -/
structure Infra where
  l : ℚ
  r : ℚ
deriving DecidableEq, Repr

namespace Infra

/-- `new(Infra)`: the zero value. -/
def zero : Infra := ⟨0, 0⟩

/-- `Infra.Equals`. -/
def Equals (z y : Infra) : Bool := z.l == y.l && z.r == y.r

/-- `Infra.Scal`. -/
def Scal (y : Infra) (a : ℚ) : Infra := ⟨y.l * a, y.r * a⟩

/-- `Infra.Neg`. -/
def Neg (y : Infra) : Infra := ⟨-y.l, -y.r⟩

/-- `Infra.Conj`. -/
def Conj (y : Infra) : Infra := ⟨y.l, -y.r⟩

/-- `Infra.Add`. -/
def Add (x y : Infra) : Infra := ⟨x.l + y.l, x.r + y.r⟩

/-- `Infra.Sub`. -/
def Sub (x y : Infra) : Infra := ⟨x.l - y.l, x.r - y.r⟩

/-- `Infra.Mul`: `z.l = a*c`, `z.r = d*a + b*c`. -/
def Mul (x y : Infra) : Infra :=
  ⟨x.l * y.l, y.r * x.l + x.r * y.l⟩

/-- `Infra.Quad`: `l*l`. -/
def Quad (z : Infra) : ℚ := z.l * z.l

/-- `Infra.IsZeroDiv`: true iff `l = 0`. -/
def IsZeroDiv (z : Infra) : Bool := z.l == 0

/-- The value computed by `Infra.Inv` past its zero-divisor check. -/
def invVal (y : Infra) : Infra := ⟨y.l / Quad y, -y.r / Quad y⟩

/-- `Infra.Inv`: panics ("zero divisor inverse") iff `IsZeroDiv(y)`. -/
def Inv (y : Infra) : Except DomainError Infra :=
  if IsZeroDiv y then .error .zeroDivisor else .ok (invVal y)

/-- `Infra.Quo` with a fresh receiver. -/
def Quo (x y : Infra) : Except DomainError Infra :=
  if IsZeroDiv y then .error .zeroDivisor
  else .ok ⟨(Mul x (Conj y)).l / Quad y, (Mul x (Conj y)).r / Quad y⟩

end Infra

/-- `Hamilton` from hamilton.go: a pair of `Complex` values. -/
structure Hamilton where
  l : Cx
  r : Cx
deriving DecidableEq, Repr

namespace Hamilton

/-- `new(Hamilton)`: the zero value. -/
def zero : Hamilton := ⟨Cx.zero, Cx.zero⟩

/-- `Hamilton.Equals`. -/
def Equals (z y : Hamilton) : Bool := Cx.Equals z.l y.l && Cx.Equals z.r y.r

/-- `Hamilton.Scal`. -/
def Scal (y : Hamilton) (a : ℚ) : Hamilton := ⟨Cx.Scal y.l a, Cx.Scal y.r a⟩

/-- `Hamilton.Neg`. -/
def Neg (y : Hamilton) : Hamilton := ⟨Cx.Neg y.l, Cx.Neg y.r⟩

/-- `Hamilton.Conj`: `(Conj(A), -B)`. -/
def Conj (y : Hamilton) : Hamilton := ⟨Cx.Conj y.l, Cx.Neg y.r⟩

/-- `Hamilton.Add`. -/
def Add (x y : Hamilton) : Hamilton := ⟨Cx.Add x.l y.l, Cx.Add x.r y.r⟩

/-- `Hamilton.Sub`. -/
def Sub (x y : Hamilton) : Hamilton := ⟨Cx.Sub x.l y.l, Cx.Sub x.r y.r⟩

/-- `Hamilton.Mul` with a fresh receiver: with a=x.l, b=x.r, c=y.l, d=y.r the
code computes `z.l = Mul(a,c) - Mul(Conj(d),b)` and
`z.r = Mul(d,a) + Mul(b,Conj(c))` over the `Complex` base. -/
def Mul (x y : Hamilton) : Hamilton :=
  ⟨Cx.Sub (Cx.Mul x.l y.l) (Cx.Mul (Cx.Conj y.r) x.r),
   Cx.Add (Cx.Mul y.r x.l) (Cx.Mul x.r (Cx.Conj y.l))⟩

/-- `Hamilton.Commutator` with a fresh receiver: `Mul(x,y) - Mul(y,x)`. -/
def Commutator (x y : Hamilton) : Hamilton := Sub (Mul x y) (Mul y x)

/-- `Hamilton.Commutator` executed with the receiver `z` aliasing the input
`x`: `z.Mul(x, y)` writes `Mul(x,y)` into `x`'s storage, so the second call
`new(Hamilton).Mul(y, x)` reads `Mul(x,y)` in place of `x`. -/
def commutatorAliasX (x y : Hamilton) : Hamilton :=
  Sub (Mul x y) (Mul y (Mul x y))

/-- `Hamilton.Quad`: `Quad(A) + Quad(B)`. -/
def Quad (z : Hamilton) : ℚ := Cx.Quad z.l + Cx.Quad z.r

/-- The value computed by `Hamilton.Inv` past its zero check: `Conj(y)` with
all four scalar components divided by `Quad(y)`. -/
def invVal (y : Hamilton) : Hamilton :=
  ⟨⟨(Conj y).l.l / Quad y, (Conj y).l.r / Quad y⟩,
   ⟨(Conj y).r.l / Quad y, (Conj y).r.r / Quad y⟩⟩

/-- `Hamilton.Inv`: panics ("inverse of zero") iff `y` equals the zero
value. -/
def Inv (y : Hamilton) : Except DomainError Hamilton :=
  if Equals y zero then .error .divideByZero else .ok (invVal y)

/-- `Hamilton.QuoL` with a fresh receiver: after the zero check it computes
`Mul(Conj(y), x)` and divides each scalar component by `Quad(y)`. -/
def QuoL (x y : Hamilton) : Except DomainError Hamilton :=
  if Equals y zero then .error .divideByZero
  else .ok ⟨⟨(Mul (Conj y) x).l.l / Quad y, (Mul (Conj y) x).l.r / Quad y⟩,
    ⟨(Mul (Conj y) x).r.l / Quad y, (Mul (Conj y) x).r.r / Quad y⟩⟩

/-- `Hamilton.QuoR` with a fresh receiver: after the zero check it computes
`Mul(x, Conj(y))` and divides each scalar component by `Quad(y)`. -/
def QuoR (x y : Hamilton) : Except DomainError Hamilton :=
  if Equals y zero then .error .divideByZero
  else .ok ⟨⟨(Mul x (Conj y)).l.l / Quad y, (Mul x (Conj y)).l.r / Quad y⟩,
    ⟨(Mul x (Conj y)).r.l / Quad y, (Mul x (Conj y)).r.r / Quad y⟩⟩

end Hamilton

/-- `Cockle` from cockle.go: a pair of `Complex` values. -/
structure Cockle where
  l : Cx
  r : Cx
deriving DecidableEq, Repr

namespace Cockle

/-- `new(Cockle)`: the zero value. -/
def zero : Cockle := ⟨Cx.zero, Cx.zero⟩

/-- `Cockle.Equals`. -/
def Equals (z y : Cockle) : Bool := Cx.Equals z.l y.l && Cx.Equals z.r y.r

/-- `Cockle.Scal`. -/
def Scal (y : Cockle) (a : ℚ) : Cockle := ⟨Cx.Scal y.l a, Cx.Scal y.r a⟩

/-- `Cockle.Neg`. -/
def Neg (y : Cockle) : Cockle := ⟨Cx.Neg y.l, Cx.Neg y.r⟩

/-- `Cockle.Conj`: `(Conj(A), -B)`. -/
def Conj (y : Cockle) : Cockle := ⟨Cx.Conj y.l, Cx.Neg y.r⟩

/-- `Cockle.Add`. -/
def Add (x y : Cockle) : Cockle := ⟨Cx.Add x.l y.l, Cx.Add x.r y.r⟩

/-- `Cockle.Sub`. -/
def Sub (x y : Cockle) : Cockle := ⟨Cx.Sub x.l y.l, Cx.Sub x.r y.r⟩

/-- `Cockle.Mul` with a fresh receiver: `z.l = Mul(a,c) + Mul(Conj(d),b)`,
`z.r = Mul(d,a) + Mul(b,Conj(c))` over the `Complex` base. -/
def Mul (x y : Cockle) : Cockle :=
  ⟨Cx.Add (Cx.Mul x.l y.l) (Cx.Mul (Cx.Conj y.r) x.r),
   Cx.Add (Cx.Mul y.r x.l) (Cx.Mul x.r (Cx.Conj y.l))⟩

/-- `Cockle.Commutator` with a fresh receiver: `Mul(x,y) - Mul(y,x)`. -/
def Commutator (x y : Cockle) : Cockle := Sub (Mul x y) (Mul y x)

/-- `Cockle.Quad`: `Quad(A) - Quad(B)`. -/
def Quad (z : Cockle) : ℚ := Cx.Quad z.l - Cx.Quad z.r

/-- `Cockle.IsZeroDiv`: true iff `Quad(A) = Quad(B)`. -/
def IsZeroDiv (z : Cockle) : Bool := Cx.Quad z.l == Cx.Quad z.r

/-- The value computed by `Cockle.Inv` past its zero-divisor check. -/
def invVal (y : Cockle) : Cockle :=
  ⟨⟨(Conj y).l.l / Quad y, (Conj y).l.r / Quad y⟩,
   ⟨(Conj y).r.l / Quad y, (Conj y).r.r / Quad y⟩⟩

/-- `Cockle.Inv`: panics ("inverse of zero divisor") iff `IsZeroDiv(y)`. -/
def Inv (y : Cockle) : Except DomainError Cockle :=
  if IsZeroDiv y then .error .zeroDivisor else .ok (invVal y)

/-- `Cockle.QuoL` with a fresh receiver: `Mul(Conj(y), x)` with each scalar
component divided by `Quad(y)`. -/
def QuoL (x y : Cockle) : Except DomainError Cockle :=
  if IsZeroDiv y then .error .zeroDivisor
  else .ok ⟨⟨(Mul (Conj y) x).l.l / Quad y, (Mul (Conj y) x).l.r / Quad y⟩,
    ⟨(Mul (Conj y) x).r.l / Quad y, (Mul (Conj y) x).r.r / Quad y⟩⟩

/-- `Cockle.QuoR` with a fresh receiver: `Mul(x, Conj(y))` with each scalar
component divided by `Quad(y)`. -/
def QuoR (x y : Cockle) : Except DomainError Cockle :=
  if IsZeroDiv y then .error .zeroDivisor
  else .ok ⟨⟨(Mul x (Conj y)).l.l / Quad y, (Mul x (Conj y)).l.r / Quad y⟩,
    ⟨(Mul x (Conj y)).r.l / Quad y, (Mul x (Conj y)).r.r / Quad y⟩⟩

/-- `NewCockle(1, 0, 0, 0)`: the multiplicative identity used by
`IsNilpotent`. -/
def one : Cockle := ⟨⟨1, 0⟩, Cx.zero⟩

/-- The loop of `Cockle.IsNilpotent`: repeatedly `p ← Mul(p, z)`, returning
true as soon as `p` equals the zero value, with `fuel` iterations left. -/
def nilpotentLoop (p z : Cockle) (fuel : ℕ) : Bool :=
  match fuel with
  | 0 => false
  | f + 1 =>
    if Equals (Mul p z) zero then true else nilpotentLoop (Mul p z) z f

/-- `Cockle.IsNilpotent(n)`: returns true immediately when `z` equals the
zero value; otherwise runs the power loop `n` times (a non-positive `n`
runs it zero times). -/
def IsNilpotent (z : Cockle) (n : ℤ) : Bool :=
  if Equals z zero then true else nilpotentLoop one z n.toNat

/-- Iterated right multiplication: `powFrom p z j` is the value of the loop
variable of `IsNilpotent` after `j` iterations starting from `p`,
multiplying by `z` on the right each time. -/
def powFrom (p z : Cockle) : ℕ → Cockle
  | 0 => p
  | j + 1 => Mul (powFrom p z j) z

/-- The i-th partial power of `x`: `p_0` is the multiplicative identity and
`p_{i+1} = Mul(p_i, x)`. -/
def partialPower (x : Cockle) (i : ℕ) : Cockle := powFrom one x i

end Cockle

/-- `Supra` from supra.go: a pair of `Infra` values. -/
structure Supra where
  l : Infra
  r : Infra
deriving DecidableEq, Repr

namespace Supra

/-- `new(Supra)`: the zero value. -/
def zero : Supra := ⟨Infra.zero, Infra.zero⟩

/-- `Supra.Equals`. -/
def Equals (z y : Supra) : Bool := Infra.Equals z.l y.l && Infra.Equals z.r y.r

/-- `Supra.Scal`. -/
def Scal (y : Supra) (a : ℚ) : Supra := ⟨Infra.Scal y.l a, Infra.Scal y.r a⟩

/-- `Supra.Neg`. -/
def Neg (y : Supra) : Supra := ⟨Infra.Neg y.l, Infra.Neg y.r⟩

/-- `Supra.Conj`: `(Conj(A), -B)`. -/
def Conj (y : Supra) : Supra := ⟨Infra.Conj y.l, Infra.Neg y.r⟩

/-- `Supra.Add`. -/
def Add (x y : Supra) : Supra := ⟨Infra.Add x.l y.l, Infra.Add x.r y.r⟩

/-- `Supra.Sub`. -/
def Sub (x y : Supra) : Supra := ⟨Infra.Sub x.l y.l, Infra.Sub x.r y.r⟩

/-- `Supra.Mul` with a fresh receiver: `z.l = Mul(a,c)`,
`z.r = Mul(d,a) + Mul(b,Conj(c))` over the `Infra` base. -/
def Mul (x y : Supra) : Supra :=
  ⟨Infra.Mul x.l y.l,
   Infra.Add (Infra.Mul y.r x.l) (Infra.Mul x.r (Infra.Conj y.l))⟩

/-- `Supra.Commutator` with a fresh receiver: `Mul(x,y) - Mul(y,x)`. -/
def Commutator (x y : Supra) : Supra := Sub (Mul x y) (Mul y x)

/-- `Supra.Quad`: `Quad(A)`. -/
def Quad (z : Supra) : ℚ := Infra.Quad z.l

/-- `Supra.IsZeroDiv`: true iff `A` is a zero divisor of the base, i.e.
`A.l = 0`. -/
def IsZeroDiv (z : Supra) : Bool := Infra.IsZeroDiv z.l

/-- The value computed by `Supra.Inv` past its zero-divisor check. -/
def invVal (y : Supra) : Supra :=
  ⟨⟨(Conj y).l.l / Quad y, (Conj y).l.r / Quad y⟩,
   ⟨(Conj y).r.l / Quad y, (Conj y).r.r / Quad y⟩⟩

/-- `Supra.Inv`: panics ("inverse of zero divisor") iff `IsZeroDiv(y)`. -/
def Inv (y : Supra) : Except DomainError Supra :=
  if IsZeroDiv y then .error .zeroDivisor else .ok (invVal y)

/-- `Supra.QuoL` with a fresh receiver: `Mul(Conj(y), x)` with each scalar
component divided by `Quad(y)`. -/
def QuoL (x y : Supra) : Except DomainError Supra :=
  if IsZeroDiv y then .error .zeroDivisor
  else .ok ⟨⟨(Mul (Conj y) x).l.l / Quad y, (Mul (Conj y) x).l.r / Quad y⟩,
    ⟨(Mul (Conj y) x).r.l / Quad y, (Mul (Conj y) x).r.r / Quad y⟩⟩

/-- `Supra.QuoR` with a fresh receiver: `Mul(x, Conj(y))` with each scalar
component divided by `Quad(y)`. -/
def QuoR (x y : Supra) : Except DomainError Supra :=
  if IsZeroDiv y then .error .zeroDivisor
  else .ok ⟨⟨(Mul x (Conj y)).l.l / Quad y, (Mul x (Conj y)).l.r / Quad y⟩,
    ⟨(Mul x (Conj y)).r.l / Quad y, (Mul x (Conj y)).r.r / Quad y⟩⟩

end Supra

/-! ## Helper lemmas -/

theorem Cx.eq_iff_cx (z y : Cx) : z = y ↔ z.l = y.l ∧ z.r = y.r := by
  cases z; cases y; simp

theorem Perplex.eq_iff_perplex (z y : Perplex) : z = y ↔ z.l = y.l ∧ z.r = y.r := by
  cases z; cases y; simp

theorem Infra.eq_iff_infra (z y : Infra) : z = y ↔ z.l = y.l ∧ z.r = y.r := by
  cases z; cases y; simp

theorem Hamilton.eq_iff_ham (z y : Hamilton) : z = y ↔ z.l = y.l ∧ z.r = y.r := by
  cases z; cases y; simp

theorem Cockle.eq_iff_cockle (z y : Cockle) : z = y ↔ z.l = y.l ∧ z.r = y.r := by
  cases z; cases y; simp

theorem Supra.eq_iff_supra (z y : Supra) : z = y ↔ z.l = y.l ∧ z.r = y.r := by
  cases z; cases y; simp

theorem Cx.equals_iff_cx (z y : Cx) : Cx.Equals z y = true ↔ z = y := by
  simp [Cx.Equals, Cx.eq_iff_cx]

theorem Perplex.equals_iff_perplex (z y : Perplex) :
    Perplex.Equals z y = true ↔ z = y := by
  simp [Perplex.Equals, Perplex.eq_iff_perplex]

theorem Infra.equals_iff_infra (z y : Infra) : Infra.Equals z y = true ↔ z = y := by
  simp [Infra.Equals, Infra.eq_iff_infra]

theorem Hamilton.equals_iff_ham (z y : Hamilton) :
    Hamilton.Equals z y = true ↔ z = y := by
  simp [Hamilton.Equals, Cx.equals_iff_cx, Hamilton.eq_iff_ham]

theorem Cockle.equals_iff_cockle (z y : Cockle) :
    Cockle.Equals z y = true ↔ z = y := by
  simp [Cockle.Equals, Cx.equals_iff_cx, Cockle.eq_iff_cockle]

theorem Supra.equals_iff_supra (z y : Supra) : Supra.Equals z y = true ↔ z = y := by
  simp [Supra.Equals, Infra.equals_iff_infra, Supra.eq_iff_supra]

theorem Cx.quad_nonneg_cx (x : Cx) : 0 ≤ Cx.Quad x := by
  have h1 := mul_self_nonneg x.l
  have h2 := mul_self_nonneg x.r
  unfold Cx.Quad; linarith

theorem Cx.quad_eq_zero_iff_cx (x : Cx) : Cx.Quad x = 0 ↔ x = Cx.zero := by
  simp only [Cx.Quad, Cx.zero, Cx.eq_iff_cx]
  constructor
  · intro h
    constructor <;> nlinarith [mul_self_nonneg x.l, mul_self_nonneg x.r]
  · rintro ⟨h1, h2⟩
    rw [h1, h2]; ring

theorem Cx.quad_pos_cx (x : Cx) (h : x ≠ Cx.zero) : 0 < Cx.Quad x := by
  rcases lt_or_eq_of_le (Cx.quad_nonneg_cx x) with hlt | heq
  · exact hlt
  · exact absurd ((Cx.quad_eq_zero_iff_cx x).mp heq.symm) h

theorem Hamilton.quad_nonneg_ham (x : Hamilton) : 0 ≤ Hamilton.Quad x := by
  have h1 := Cx.quad_nonneg_cx x.l
  have h2 := Cx.quad_nonneg_cx x.r
  unfold Hamilton.Quad; linarith

theorem Hamilton.quad_eq_zero_iff_ham (x : Hamilton) :
    Hamilton.Quad x = 0 ↔ x = Hamilton.zero := by
  constructor
  · intro h
    have h1 := Cx.quad_nonneg_cx x.l
    have h2 := Cx.quad_nonneg_cx x.r
    have hl : Cx.Quad x.l = 0 := by unfold Hamilton.Quad at h; linarith
    have hr : Cx.Quad x.r = 0 := by unfold Hamilton.Quad at h; linarith
    rw [Hamilton.eq_iff_ham]
    exact ⟨(Cx.quad_eq_zero_iff_cx x.l).mp hl, (Cx.quad_eq_zero_iff_cx x.r).mp hr⟩
  · intro h; subst h
    norm_num [Hamilton.Quad, Cx.Quad, Hamilton.zero, Cx.zero]

theorem Hamilton.quad_pos_ham (x : Hamilton) (h : x ≠ Hamilton.zero) :
    0 < Hamilton.Quad x := by
  rcases lt_or_eq_of_le (Hamilton.quad_nonneg_ham x) with hlt | heq
  · exact hlt
  · exact absurd ((Hamilton.quad_eq_zero_iff_ham x).mp heq.symm) h

theorem Cx.quad_mul_cx (x y : Cx) :
    Cx.Quad (Cx.Mul x y) = Cx.Quad x * Cx.Quad y := by
  simp only [Cx.Quad, Cx.Mul]; ring

theorem Hamilton.quad_mul_ham (x y : Hamilton) :
    Hamilton.Quad (Hamilton.Mul x y) = Hamilton.Quad x * Hamilton.Quad y := by
  simp only [Hamilton.Quad, Hamilton.Mul, Cx.Quad, Cx.Mul, Cx.Sub, Cx.Add,
    Cx.Conj]
  ring

theorem exceptIf_error_iff {α : Type} (b : Bool) (k : DomainError) (v : α) :
    ((if b then (Except.error k : Except DomainError α) else Except.ok v) =
      Except.error k) ↔ b = true := by
  cases b <;> simp

theorem exceptIf_ok {α : Type} (b : Bool) (k : DomainError) (v : α)
    (h : ¬ b = true) :
    (if b then (Except.error k : Except DomainError α) else Except.ok v) =
      Except.ok v := by
  simp [h]

theorem Perplex.quad_ne_zero_perplex (y : Perplex) (h : Perplex.IsZeroDiv y ≠ true) :
    Perplex.Quad y ≠ 0 := by
  simp only [ne_eq, Perplex.IsZeroDiv, Bool.or_eq_true, beq_iff_eq] at h
  push_neg at h
  obtain ⟨h1, h2⟩ := h
  have hfac : Perplex.Quad y = (y.l - y.r) * (y.l + y.r) := by
    unfold Perplex.Quad; ring
  rw [hfac]
  refine mul_ne_zero (sub_ne_zero.mpr h1) (fun hc => h2 (by linarith))

theorem Infra.quad_ne_zero_infra (y : Infra) (h : Infra.IsZeroDiv y ≠ true) :
    Infra.Quad y ≠ 0 := by
  simp only [ne_eq, Infra.IsZeroDiv, beq_iff_eq] at h
  exact mul_ne_zero h h

theorem Cockle.quad_ne_zero_cockle (y : Cockle) (h : Cockle.IsZeroDiv y ≠ true) :
    Cockle.Quad y ≠ 0 := by
  simp only [ne_eq, Cockle.IsZeroDiv, beq_iff_eq] at h
  exact sub_ne_zero.mpr h

theorem Supra.quad_ne_zero_supra (y : Supra) (h : Supra.IsZeroDiv y ≠ true) :
    Supra.Quad y ≠ 0 := by
  simp only [ne_eq, Supra.IsZeroDiv, Infra.IsZeroDiv, beq_iff_eq] at h
  exact mul_ne_zero h h

theorem Cockle.powFrom_shift (p z : Cockle) (j : ℕ) :
    Cockle.powFrom (Cockle.Mul p z) z j = Cockle.powFrom p z (j + 1) := by
  induction j with
  | zero => rfl
  | succ j ih => simp only [Cockle.powFrom, ih]

theorem Cockle.nilpotentLoop_iff (z : Cockle) :
    ∀ (f : ℕ) (p : Cockle),
      Cockle.nilpotentLoop p z f = true ↔
        ∃ j : ℕ, 1 ≤ j ∧ j ≤ f ∧ Cockle.powFrom p z j = Cockle.zero := by
  intro f
  induction f with
  | zero =>
    intro p
    simp only [Cockle.nilpotentLoop]
    constructor
    · intro h; cases h
    · rintro ⟨j, h1, h2, -⟩; omega
  | succ f ih =>
    intro p
    simp only [Cockle.nilpotentLoop]
    by_cases h : Cockle.Mul p z = Cockle.zero
    · rw [if_pos ((Cockle.equals_iff_cockle _ _).mpr h)]
      constructor
      · exact fun _ => ⟨1, le_refl 1, by omega, h⟩
      · exact fun _ => rfl
    · rw [if_neg (fun hc => h ((Cockle.equals_iff_cockle _ _).mp hc))]
      rw [ih (Cockle.Mul p z)]
      constructor
      · rintro ⟨j, h1, h2, h3⟩
        exact ⟨j + 1, by omega, by omega,
          by rwa [Cockle.powFrom_shift] at h3⟩
      · rintro ⟨j, h1, h2, h3⟩
        rcases j with _ | j
        · exact absurd h1 (by omega)
        · rcases Nat.eq_zero_or_pos j with hj | hj
          · subst hj
            exact absurd h3 h
          · exact ⟨j, by omega, by omega,
              by rw [Cockle.powFrom_shift]; exact h3⟩

/-! ## Claim theorems -/

/-- C1: for every Rank2 value x=(a,b) and y=(c,d), Mul(x,y) has left half
`a·c + σ·Conj(d)·b` and right half `d·a + b·Conj(c)`, with σ = -1 for
Hamilton, σ = +1 for Cockle and σ = 0 for Supra (so for Supra
`l = a·c`), all component arithmetic being the base Rank1 algebra's
Mul, Conj, Add, Sub (σ·- is the base algebra's Scal by σ). -/
theorem C1_rank2_mul_doubling_formula :
    (∀ x y : Hamilton,
      Hamilton.Mul x y =
        ⟨Cx.Add (Cx.Mul x.l y.l) (Cx.Scal (Cx.Mul (Cx.Conj y.r) x.r) (-1)),
         Cx.Add (Cx.Mul y.r x.l) (Cx.Mul x.r (Cx.Conj y.l))⟩) ∧
    (∀ x y : Cockle,
      Cockle.Mul x y =
        ⟨Cx.Add (Cx.Mul x.l y.l) (Cx.Scal (Cx.Mul (Cx.Conj y.r) x.r) 1),
         Cx.Add (Cx.Mul y.r x.l) (Cx.Mul x.r (Cx.Conj y.l))⟩) ∧
    (∀ x y : Supra,
      Supra.Mul x y =
        ⟨Infra.Add (Infra.Mul x.l y.l)
           (Infra.Scal (Infra.Mul (Infra.Conj y.r) x.r) 0),
         Infra.Add (Infra.Mul y.r x.l) (Infra.Mul x.r (Infra.Conj y.l))⟩ ∧
      (Supra.Mul x y).l = Infra.Mul x.l y.l) := by
  refine ⟨fun x y => ?_, fun x y => ?_, fun x y => ⟨?_, ?_⟩⟩
  · rw [Hamilton.eq_iff_ham]
    constructor <;>
      (rw [Cx.eq_iff_cx]; constructor <;>
        (simp only [Hamilton.Mul, Cx.Add, Cx.Sub, Cx.Mul, Cx.Conj, Cx.Scal]
         try ring))
  · rw [Cockle.eq_iff_cockle]
    constructor <;>
      (rw [Cx.eq_iff_cx]; constructor <;>
        (simp only [Cockle.Mul, Cx.Add, Cx.Sub, Cx.Mul, Cx.Conj, Cx.Scal]
         try ring))
  · rw [Supra.eq_iff_supra]
    constructor <;>
      (rw [Infra.eq_iff_infra]; constructor <;>
        (simp only [Supra.Mul, Infra.Add, Infra.Sub, Infra.Mul, Infra.Conj,
           Infra.Scal]
         try ring))
  · rfl

/-- C2: for every Rank1 value x=(a,b) and y=(c,d), Mul(x,y) returns
`(a·c + ε·b·d, a·d + b·c)` with ε = -1 for Complex, ε = +1 for Perplex and
ε = 0 for Infra, and for all three algebras Mul is commutative and
associative. -/
theorem C2_rank1_mul_formula_comm_assoc :
    (∀ x y : Cx, Cx.Mul x y =
        ⟨x.l * y.l + (-1) * (x.r * y.r), x.l * y.r + x.r * y.l⟩) ∧
    (∀ x y : Perplex, Perplex.Mul x y =
        ⟨x.l * y.l + 1 * (x.r * y.r), x.l * y.r + x.r * y.l⟩) ∧
    (∀ x y : Infra, Infra.Mul x y =
        ⟨x.l * y.l + 0 * (x.r * y.r), x.l * y.r + x.r * y.l⟩) ∧
    (∀ x y : Cx, Cx.Mul x y = Cx.Mul y x) ∧
    (∀ x y z : Cx, Cx.Mul (Cx.Mul x y) z = Cx.Mul x (Cx.Mul y z)) ∧
    (∀ x y : Perplex, Perplex.Mul x y = Perplex.Mul y x) ∧
    (∀ x y z : Perplex,
      Perplex.Mul (Perplex.Mul x y) z = Perplex.Mul x (Perplex.Mul y z)) ∧
    (∀ x y : Infra, Infra.Mul x y = Infra.Mul y x) ∧
    (∀ x y z : Infra,
      Infra.Mul (Infra.Mul x y) z = Infra.Mul x (Infra.Mul y z)) := by
  refine ⟨fun x y => ?_, fun x y => ?_, fun x y => ?_, fun x y => ?_,
    fun x y z => ?_, fun x y => ?_, fun x y z => ?_, fun x y => ?_,
    fun x y z => ?_⟩
  · rw [Cx.eq_iff_cx]; constructor <;> (simp only [Cx.Mul]; ring)
  · rw [Perplex.eq_iff_perplex]; constructor <;> (simp only [Perplex.Mul]; ring)
  · rw [Infra.eq_iff_infra]; constructor <;> (simp only [Infra.Mul]; ring)
  · rw [Cx.eq_iff_cx]; constructor <;> (simp only [Cx.Mul]; ring)
  · rw [Cx.eq_iff_cx]; constructor <;> (simp only [Cx.Mul]; ring)
  · rw [Perplex.eq_iff_perplex]; constructor <;> (simp only [Perplex.Mul]; ring)
  · rw [Perplex.eq_iff_perplex]; constructor <;> (simp only [Perplex.Mul]; ring)
  · rw [Infra.eq_iff_infra]; constructor <;> (simp only [Infra.Mul]; ring)
  · rw [Infra.eq_iff_infra]; constructor <;> (simp only [Infra.Mul]; ring)

/-- C8: in every algebra of the library, Rank1 and Rank2,
`Conj(Mul(x,y)) = Mul(Conj(y), Conj(x))`, the factors in this order. -/
theorem C8_conj_antidistributes_over_mul :
    (∀ x y : Cx, Cx.Conj (Cx.Mul x y) = Cx.Mul (Cx.Conj y) (Cx.Conj x)) ∧
    (∀ x y : Perplex,
      Perplex.Conj (Perplex.Mul x y) =
        Perplex.Mul (Perplex.Conj y) (Perplex.Conj x)) ∧
    (∀ x y : Infra,
      Infra.Conj (Infra.Mul x y) =
        Infra.Mul (Infra.Conj y) (Infra.Conj x)) ∧
    (∀ x y : Hamilton,
      Hamilton.Conj (Hamilton.Mul x y) =
        Hamilton.Mul (Hamilton.Conj y) (Hamilton.Conj x)) ∧
    (∀ x y : Cockle,
      Cockle.Conj (Cockle.Mul x y) =
        Cockle.Mul (Cockle.Conj y) (Cockle.Conj x)) ∧
    (∀ x y : Supra,
      Supra.Conj (Supra.Mul x y) =
        Supra.Mul (Supra.Conj y) (Supra.Conj x)) := by
  refine ⟨fun x y => ?_, fun x y => ?_, fun x y => ?_, fun x y => ?_,
    fun x y => ?_, fun x y => ?_⟩
  · rw [Cx.eq_iff_cx]; constructor <;> (simp only [Cx.Mul, Cx.Conj]; ring)
  · rw [Perplex.eq_iff_perplex]
    constructor <;> (simp only [Perplex.Mul, Perplex.Conj]; ring)
  · rw [Infra.eq_iff_infra]
    constructor <;> (simp only [Infra.Mul, Infra.Conj]; ring)
  · rw [Hamilton.eq_iff_ham]
    constructor <;>
      (rw [Cx.eq_iff_cx]; constructor <;>
        (simp only [Hamilton.Mul, Hamilton.Conj, Cx.Mul, Cx.Conj, Cx.Add,
           Cx.Sub, Cx.Neg]
         ring))
  · rw [Cockle.eq_iff_cockle]
    constructor <;>
      (rw [Cx.eq_iff_cx]; constructor <;>
        (simp only [Cockle.Mul, Cockle.Conj, Cx.Mul, Cx.Conj, Cx.Add, Cx.Sub,
           Cx.Neg]
         ring))
  · rw [Supra.eq_iff_supra]
    constructor <;>
      (rw [Infra.eq_iff_infra]; constructor <;>
        (simp only [Supra.Mul, Supra.Conj, Infra.Mul, Infra.Conj, Infra.Add,
           Infra.Sub, Infra.Neg]
         ring))

/-- C9: the quadratic form is positive-definite in the two division
algebras: for every Complex value, Quad is nonnegative and vanishes only at
the zero value; for every Hamilton value, Quad is the sum of the two
component quadrances, is nonnegative, and vanishes only at the zero
value. -/
theorem C9_quad_positive_definite :
    (∀ x : Cx, 0 ≤ Cx.Quad x ∧ (Cx.Quad x = 0 ↔ x = Cx.zero)) ∧
    (∀ z : Hamilton,
      Hamilton.Quad z = Cx.Quad z.l + Cx.Quad z.r ∧
      0 ≤ Hamilton.Quad z ∧
      (Hamilton.Quad z = 0 ↔ z = Hamilton.zero)) := by
  constructor
  · exact fun x => ⟨Cx.quad_nonneg_cx x, Cx.quad_eq_zero_iff_cx x⟩
  · exact fun z =>
      ⟨rfl, Hamilton.quad_nonneg_ham z, Hamilton.quad_eq_zero_iff_ham z⟩

/-- C10: `Perplex.Idempotent(sign)` returns (0.5, -0.5) exactly when
sign < 0 and (0.5, 0.5) otherwise (including sign = 0); the returned value
p satisfies `Mul(p,p) = p` exactly and `IsZeroDiv(p) = true`. -/
theorem C10_perplex_idempotent :
    ∀ sign : ℤ,
      Perplex.Idempotent sign =
        (if sign < 0 then (⟨1/2, -1/2⟩ : Perplex) else ⟨1/2, 1/2⟩) ∧
      Perplex.Mul (Perplex.Idempotent sign) (Perplex.Idempotent sign) =
        Perplex.Idempotent sign ∧
      Perplex.IsZeroDiv (Perplex.Idempotent sign) = true := by
  intro sign
  refine ⟨rfl, ?_, ?_⟩
  · by_cases h : sign < 0 <;>
      (simp [Perplex.Idempotent, h, Perplex.Mul, Perplex.eq_iff_perplex]; try norm_num)
  · by_cases h : sign < 0 <;>
      (simp [Perplex.Idempotent, h, Perplex.IsZeroDiv]; try norm_num)

/-- C3: IsZeroDiv returns true exactly on the stated zero-divisor sets:
Perplex iff `a = b` or `a = -b`; Infra iff `a = 0`; Cockle iff
`Quad(A) = Quad(B)`; Supra iff the real component of `A` is 0; and the two
division algebras Complex and Hamilton have no nonzero zero divisors (a
product of nonzero values is nonzero). -/
theorem C3_iszerodiv_characterisation :
    (∀ z : Perplex, Perplex.IsZeroDiv z = true ↔ (z.l = z.r ∨ z.l = -z.r)) ∧
    (∀ z : Infra, Infra.IsZeroDiv z = true ↔ z.l = 0) ∧
    (∀ z : Cockle, Cockle.IsZeroDiv z = true ↔ Cx.Quad z.l = Cx.Quad z.r) ∧
    (∀ z : Supra, Supra.IsZeroDiv z = true ↔ z.l.l = 0) ∧
    (∀ x y : Cx, x ≠ Cx.zero → y ≠ Cx.zero → Cx.Mul x y ≠ Cx.zero) ∧
    (∀ x y : Hamilton, x ≠ Hamilton.zero → y ≠ Hamilton.zero →
      Hamilton.Mul x y ≠ Hamilton.zero) := by
  refine ⟨fun z => ?_, fun z => ?_, fun z => ?_, fun z => ?_,
    fun x y hx hy hm => ?_, fun x y hx hy hm => ?_⟩
  · simp [Perplex.IsZeroDiv]
  · simp [Infra.IsZeroDiv]
  · simp [Cockle.IsZeroDiv]
  · simp [Supra.IsZeroDiv, Infra.IsZeroDiv]
  · have h := Cx.quad_mul_cx x y
    rw [hm] at h
    have hz : Cx.Quad Cx.zero = 0 := by norm_num [Cx.Quad, Cx.zero]
    rw [hz] at h
    exact absurd h.symm
      (mul_ne_zero (ne_of_gt (Cx.quad_pos_cx x hx)) (ne_of_gt (Cx.quad_pos_cx y hy)))
  · have h := Hamilton.quad_mul_ham x y
    rw [hm] at h
    have hz : Hamilton.Quad Hamilton.zero = 0 := by
      norm_num [Hamilton.Quad, Cx.Quad, Hamilton.zero, Cx.zero]
    rw [hz] at h
    exact absurd h.symm
      (mul_ne_zero (ne_of_gt (Hamilton.quad_pos_ham x hx))
        (ne_of_gt (Hamilton.quad_pos_ham y hy)))

/-- Witness for C3 at concrete inputs: the products of the chosen nonzero
Complex and Hamilton values are nonzero. -/
theorem C3_iszerodiv_characterisation_witness :
    Cx.Mul ⟨1, 0⟩ ⟨0, 1⟩ ≠ Cx.zero ∧
    Hamilton.Mul ⟨⟨1, 0⟩, ⟨0, 0⟩⟩ ⟨⟨0, 1⟩, ⟨0, 0⟩⟩ ≠ Hamilton.zero :=
  ⟨C3_iszerodiv_characterisation.2.2.2.2.1 ⟨1, 0⟩ ⟨0, 1⟩
      (by norm_num [Cx.zero, Cx.eq_iff_cx]) (by norm_num [Cx.zero, Cx.eq_iff_cx]),
   C3_iszerodiv_characterisation.2.2.2.2.2 ⟨⟨1, 0⟩, ⟨0, 0⟩⟩ ⟨⟨0, 1⟩, ⟨0, 0⟩⟩
      (by norm_num [Hamilton.zero, Cx.zero, Hamilton.eq_iff_ham, Cx.eq_iff_cx])
      (by norm_num [Hamilton.zero, Cx.zero, Hamilton.eq_iff_ham, Cx.eq_iff_cx])⟩

/-- C4: inversion and quotient operations fail iff the divisor is
non-invertible, with the error kind fixed by the algebra: Complex Inv/Quo
and Hamilton Inv/QuoL/QuoR fail with DivideByZero exactly when y is the
zero value; Perplex, Infra, Cockle and Supra Inv and quotients fail with
ZeroDivisor exactly when IsZeroDiv(y); on every invertible y, Inv succeeds
with `Conj(y)/Quad(y)` and the quadrance divided by is nonzero. -/
theorem C4_error_conditions :
    (∀ y : Cx, (Cx.Inv y = .error .divideByZero ↔ y = Cx.zero) ∧
      (y ≠ Cx.zero → Cx.Inv y = .ok (Cx.invVal y) ∧ Cx.Quad y ≠ 0)) ∧
    (∀ x y : Cx, Cx.Quo x y = .error .divideByZero ↔ y = Cx.zero) ∧
    (∀ y : Hamilton,
      (Hamilton.Inv y = .error .divideByZero ↔ y = Hamilton.zero) ∧
      (y ≠ Hamilton.zero →
        Hamilton.Inv y = .ok (Hamilton.invVal y) ∧ Hamilton.Quad y ≠ 0)) ∧
    (∀ x y : Hamilton,
      (Hamilton.QuoL x y = .error .divideByZero ↔ y = Hamilton.zero) ∧
      (Hamilton.QuoR x y = .error .divideByZero ↔ y = Hamilton.zero)) ∧
    (∀ y : Perplex,
      (Perplex.Inv y = .error .zeroDivisor ↔ Perplex.IsZeroDiv y = true) ∧
      (Perplex.IsZeroDiv y ≠ true →
        Perplex.Inv y = .ok (Perplex.invVal y) ∧ Perplex.Quad y ≠ 0)) ∧
    (∀ x y : Perplex,
      Perplex.Quo x y = .error .zeroDivisor ↔ Perplex.IsZeroDiv y = true) ∧
    (∀ y : Infra,
      (Infra.Inv y = .error .zeroDivisor ↔ Infra.IsZeroDiv y = true) ∧
      (Infra.IsZeroDiv y ≠ true →
        Infra.Inv y = .ok (Infra.invVal y) ∧ Infra.Quad y ≠ 0)) ∧
    (∀ x y : Infra,
      Infra.Quo x y = .error .zeroDivisor ↔ Infra.IsZeroDiv y = true) ∧
    (∀ y : Cockle,
      (Cockle.Inv y = .error .zeroDivisor ↔ Cockle.IsZeroDiv y = true) ∧
      (Cockle.IsZeroDiv y ≠ true →
        Cockle.Inv y = .ok (Cockle.invVal y) ∧ Cockle.Quad y ≠ 0)) ∧
    (∀ x y : Cockle,
      (Cockle.QuoL x y = .error .zeroDivisor ↔ Cockle.IsZeroDiv y = true) ∧
      (Cockle.QuoR x y = .error .zeroDivisor ↔ Cockle.IsZeroDiv y = true)) ∧
    (∀ y : Supra,
      (Supra.Inv y = .error .zeroDivisor ↔ Supra.IsZeroDiv y = true) ∧
      (Supra.IsZeroDiv y ≠ true →
        Supra.Inv y = .ok (Supra.invVal y) ∧ Supra.Quad y ≠ 0)) ∧
    (∀ x y : Supra,
      (Supra.QuoL x y = .error .zeroDivisor ↔ Supra.IsZeroDiv y = true) ∧
      (Supra.QuoR x y = .error .zeroDivisor ↔ Supra.IsZeroDiv y = true)) := by
  refine ⟨fun y => ⟨?_, fun h => ⟨?_, ne_of_gt (Cx.quad_pos_cx y h)⟩⟩,
    fun x y => ?_,
    fun y => ⟨?_, fun h => ⟨?_, ne_of_gt (Hamilton.quad_pos_ham y h)⟩⟩,
    fun x y => ⟨?_, ?_⟩,
    fun y => ⟨?_, fun h => ⟨?_, Perplex.quad_ne_zero_perplex y h⟩⟩,
    fun x y => ?_,
    fun y => ⟨?_, fun h => ⟨?_, Infra.quad_ne_zero_infra y h⟩⟩,
    fun x y => ?_,
    fun y => ⟨?_, fun h => ⟨?_, Cockle.quad_ne_zero_cockle y h⟩⟩,
    fun x y => ⟨?_, ?_⟩,
    fun y => ⟨?_, fun h => ⟨?_, Supra.quad_ne_zero_supra y h⟩⟩,
    fun x y => ⟨?_, ?_⟩⟩
  case refine_1 => unfold Cx.Inv; rw [exceptIf_error_iff]; exact Cx.equals_iff_cx y Cx.zero
  case refine_2 =>
    unfold Cx.Inv
    exact exceptIf_ok _ _ _ (fun hc => ‹y ≠ Cx.zero› ((Cx.equals_iff_cx _ _).mp hc))
  case refine_3 => unfold Cx.Quo; rw [exceptIf_error_iff]; exact Cx.equals_iff_cx y Cx.zero
  case refine_4 =>
    unfold Hamilton.Inv; rw [exceptIf_error_iff]
    exact Hamilton.equals_iff_ham y Hamilton.zero
  case refine_5 =>
    unfold Hamilton.Inv
    exact exceptIf_ok _ _ _
      (fun hc => ‹y ≠ Hamilton.zero› ((Hamilton.equals_iff_ham _ _).mp hc))
  case refine_6 =>
    unfold Hamilton.QuoL; rw [exceptIf_error_iff]
    exact Hamilton.equals_iff_ham y Hamilton.zero
  case refine_7 =>
    unfold Hamilton.QuoR; rw [exceptIf_error_iff]
    exact Hamilton.equals_iff_ham y Hamilton.zero
  case refine_8 => unfold Perplex.Inv; rw [exceptIf_error_iff]
  case refine_9 => unfold Perplex.Inv; exact exceptIf_ok _ _ _ ‹_›
  case refine_10 => unfold Perplex.Quo; rw [exceptIf_error_iff]
  case refine_11 => unfold Infra.Inv; rw [exceptIf_error_iff]
  case refine_12 => unfold Infra.Inv; exact exceptIf_ok _ _ _ ‹_›
  case refine_13 => unfold Infra.Quo; rw [exceptIf_error_iff]
  case refine_14 => unfold Cockle.Inv; rw [exceptIf_error_iff]
  case refine_15 => unfold Cockle.Inv; exact exceptIf_ok _ _ _ ‹_›
  case refine_16 => unfold Cockle.QuoL; rw [exceptIf_error_iff]
  case refine_17 => unfold Cockle.QuoR; rw [exceptIf_error_iff]
  case refine_18 => unfold Supra.Inv; rw [exceptIf_error_iff]
  case refine_19 => unfold Supra.Inv; exact exceptIf_ok _ _ _ ‹_›
  case refine_20 => unfold Supra.QuoL; rw [exceptIf_error_iff]
  case refine_21 => unfold Supra.QuoR; rw [exceptIf_error_iff]

/-- Witness for C4 at concrete invertible inputs: Inv succeeds on nonzero
values of the division algebras and on non-zero-divisors elsewhere. -/
theorem C4_error_conditions_witness :
    Cx.Inv ⟨3, 4⟩ = .ok (Cx.invVal ⟨3, 4⟩) ∧
    Hamilton.Inv ⟨⟨1, 0⟩, ⟨0, 0⟩⟩ = .ok (Hamilton.invVal ⟨⟨1, 0⟩, ⟨0, 0⟩⟩) ∧
    Perplex.Inv ⟨2, 1⟩ = .ok (Perplex.invVal ⟨2, 1⟩) ∧
    Infra.Inv ⟨1, 5⟩ = .ok (Infra.invVal ⟨1, 5⟩) ∧
    Cockle.Inv ⟨⟨2, 0⟩, ⟨1, 0⟩⟩ = .ok (Cockle.invVal ⟨⟨2, 0⟩, ⟨1, 0⟩⟩) ∧
    Supra.Inv ⟨⟨1, 0⟩, ⟨0, 0⟩⟩ = .ok (Supra.invVal ⟨⟨1, 0⟩, ⟨0, 0⟩⟩) :=
  ⟨((C4_error_conditions.1 ⟨3, 4⟩).2
      (by norm_num [Cx.zero, Cx.eq_iff_cx])).1,
   ((C4_error_conditions.2.2.1 ⟨⟨1, 0⟩, ⟨0, 0⟩⟩).2
      (by norm_num [Hamilton.zero, Cx.zero, Hamilton.eq_iff_ham, Cx.eq_iff_cx])).1,
   ((C4_error_conditions.2.2.2.2.1 ⟨2, 1⟩).2
      (by norm_num [Perplex.IsZeroDiv])).1,
   ((C4_error_conditions.2.2.2.2.2.2.1 ⟨1, 5⟩).2
      (by norm_num [Infra.IsZeroDiv])).1,
   ((C4_error_conditions.2.2.2.2.2.2.2.2.1 ⟨⟨2, 0⟩, ⟨1, 0⟩⟩).2
      (by norm_num [Cockle.IsZeroDiv, Cx.Quad])).1,
   ((C4_error_conditions.2.2.2.2.2.2.2.2.2.2.1 ⟨⟨1, 0⟩, ⟨0, 0⟩⟩).2
      (by norm_num [Supra.IsZeroDiv, Infra.IsZeroDiv])).1⟩

/-- C5 (code bug): executing `Complex.Quo` with the receiver aliased to the
input `x` diverges from executing it with a fresh receiver, and likewise
`Hamilton.Commutator`; the aliasing invariant therefore fails for these
operations.  At x=(1,0), y=(2,0) the aliased Quo yields (1,0) while the
fresh-receiver Quo yields (0.5,0); at x=i, y=j the aliased Commutator
yields k-i while the fresh-receiver Commutator yields 2k. -/
theorem C5_quo_alias_divergence :
    Cx.Quo ⟨1, 0⟩ ⟨2, 0⟩ = .ok ⟨1/2, 0⟩ ∧
    Cx.quoAliasX ⟨1, 0⟩ ⟨2, 0⟩ = .ok ⟨1, 0⟩ ∧
    Cx.quoAliasX ⟨1, 0⟩ ⟨2, 0⟩ ≠ Cx.Quo ⟨1, 0⟩ ⟨2, 0⟩ ∧
    Hamilton.Commutator ⟨⟨0, 1⟩, ⟨0, 0⟩⟩ ⟨⟨0, 0⟩, ⟨1, 0⟩⟩ =
      ⟨⟨0, 0⟩, ⟨0, 2⟩⟩ ∧
    Hamilton.commutatorAliasX ⟨⟨0, 1⟩, ⟨0, 0⟩⟩ ⟨⟨0, 0⟩, ⟨1, 0⟩⟩ =
      ⟨⟨0, -1⟩, ⟨0, 1⟩⟩ ∧
    Hamilton.commutatorAliasX ⟨⟨0, 1⟩, ⟨0, 0⟩⟩ ⟨⟨0, 0⟩, ⟨1, 0⟩⟩ ≠
      Hamilton.Commutator ⟨⟨0, 1⟩, ⟨0, 0⟩⟩ ⟨⟨0, 0⟩, ⟨1, 0⟩⟩ := by
  refine ⟨?_, ?_, ?_, ?_, ?_, ?_⟩ <;>
    norm_num [Cx.Quo, Cx.quoAliasX, Cx.Equals, Cx.zero, Cx.Mul, Cx.Conj,
      Cx.Quad, Cx.Add, Cx.Sub, Cx.Neg, Hamilton.Commutator,
      Hamilton.commutatorAliasX, Hamilton.Mul, Hamilton.Sub,
      Hamilton.eq_iff_ham, Cx.eq_iff_cx]

/-- C6 counterexample: at x = 0 and n = 0 the code returns true, although
no partial power p_i with 1 ≤ i ≤ 0 exists, so the claim's "false for
every x, including x = 0" fails. -/
theorem C6_isnilpotent_counterexample :
    Cockle.IsNilpotent Cockle.zero 0 = true ∧
    ¬ ∃ i : ℕ, 1 ≤ i ∧ (i : ℤ) ≤ 0 ∧
        Cockle.partialPower Cockle.zero i = Cockle.zero := by
  constructor
  · unfold Cockle.IsNilpotent
    rw [if_pos ((Cockle.equals_iff_cockle _ _).mpr rfl)]
  · rintro ⟨i, h1, h2, -⟩
    omega

/-- C6 amended: IsNilpotent(x, n) returns true iff x is the zero value
(which the code short-circuits before the loop, for every n, including
n = 0) or some partial power p_i with 1 ≤ i ≤ n equals the zero value; for
every nonzero x, n = 0 yields false. -/
theorem C6_isnilpotent_amended :
    ∀ (x : Cockle) (n : ℤ),
      Cockle.IsNilpotent x n = true ↔
        (x = Cockle.zero ∨
          ∃ i : ℕ, 1 ≤ i ∧ (i : ℤ) ≤ n ∧
            Cockle.partialPower x i = Cockle.zero) := by
  intro x n
  unfold Cockle.IsNilpotent
  by_cases hx : x = Cockle.zero
  · rw [if_pos ((Cockle.equals_iff_cockle _ _).mpr hx)]
    simp [hx]
  · rw [if_neg (fun hc => hx ((Cockle.equals_iff_cockle _ _).mp hc))]
    rw [Cockle.nilpotentLoop_iff]
    unfold Cockle.partialPower
    constructor
    · rintro ⟨j, h1, h2, h3⟩
      exact Or.inr ⟨j, h1, by omega, h3⟩
    · rintro (hc | ⟨i, h1, h2, h3⟩)
      · exact absurd hc hx
      · exact ⟨i, h1, by omega, h3⟩

set_option maxHeartbeats 1600000 in
/-- C7: for every invertible y, the Rank1 quotients equal `Mul(x, Inv(y))`
(with left and right products coinciding, Mul being commutative), and the
Rank2 quotients satisfy `QuoL(x,y) = Mul(Inv(y), x)` and
`QuoR(x,y) = Mul(x, Inv(y))`; the two Rank2 quotients differ in general
because Mul is noncommutative. -/
theorem C7_quotients_via_inverse :
    (∀ x y : Cx, y ≠ Cx.zero →
      Cx.Inv y = .ok (Cx.invVal y) ∧
      Cx.Quo x y = .ok (Cx.Mul x (Cx.invVal y)) ∧
      Cx.Mul x (Cx.invVal y) = Cx.Mul (Cx.invVal y) x) ∧
    (∀ x y : Perplex, Perplex.IsZeroDiv y ≠ true →
      Perplex.Inv y = .ok (Perplex.invVal y) ∧
      Perplex.Quo x y = .ok (Perplex.Mul x (Perplex.invVal y)) ∧
      Perplex.Mul x (Perplex.invVal y) = Perplex.Mul (Perplex.invVal y) x) ∧
    (∀ x y : Infra, Infra.IsZeroDiv y ≠ true →
      Infra.Inv y = .ok (Infra.invVal y) ∧
      Infra.Quo x y = .ok (Infra.Mul x (Infra.invVal y)) ∧
      Infra.Mul x (Infra.invVal y) = Infra.Mul (Infra.invVal y) x) ∧
    (∀ x y : Hamilton, y ≠ Hamilton.zero →
      Hamilton.QuoL x y = .ok (Hamilton.Mul (Hamilton.invVal y) x) ∧
      Hamilton.QuoR x y = .ok (Hamilton.Mul x (Hamilton.invVal y))) ∧
    (∀ x y : Cockle, Cockle.IsZeroDiv y ≠ true →
      Cockle.QuoL x y = .ok (Cockle.Mul (Cockle.invVal y) x) ∧
      Cockle.QuoR x y = .ok (Cockle.Mul x (Cockle.invVal y))) ∧
    (∀ x y : Supra, Supra.IsZeroDiv y ≠ true →
      Supra.QuoL x y = .ok (Supra.Mul (Supra.invVal y) x) ∧
      Supra.QuoR x y = .ok (Supra.Mul x (Supra.invVal y))) ∧
    (∃ x y : Hamilton, y ≠ Hamilton.zero ∧
      Hamilton.QuoL x y ≠ Hamilton.QuoR x y) := by
  refine ⟨fun x y h => ?_, fun x y h => ?_, fun x y h => ?_,
    fun x y h => ?_, fun x y h => ?_, fun x y h => ?_, ?_⟩
  · have hq : Cx.Quad y ≠ 0 := ne_of_gt (Cx.quad_pos_cx y h)
    have hc : ¬ Cx.Equals y Cx.zero = true :=
      fun hc => h ((Cx.equals_iff_cx _ _).mp hc)
    refine ⟨?_, ?_, ?_⟩
    · unfold Cx.Inv; exact exceptIf_ok _ _ _ hc
    · unfold Cx.Quo
      rw [exceptIf_ok _ _ _ hc]
      congr 1
      rw [Cx.eq_iff_cx]
      constructor <;>
        (simp only [Cx.Mul, Cx.Conj, Cx.invVal]; field_simp; try ring)
    · rw [Cx.eq_iff_cx]
      constructor <;> (simp only [Cx.Mul]; ring)
  · have hq : Perplex.Quad y ≠ 0 := Perplex.quad_ne_zero_perplex y h
    refine ⟨?_, ?_, ?_⟩
    · unfold Perplex.Inv; exact exceptIf_ok _ _ _ h
    · unfold Perplex.Quo
      rw [exceptIf_ok _ _ _ h]
      congr 1
      rw [Perplex.eq_iff_perplex]
      constructor <;>
        (simp only [Perplex.Mul, Perplex.Conj, Perplex.invVal]
         field_simp; try ring)
    · rw [Perplex.eq_iff_perplex]
      constructor <;> (simp only [Perplex.Mul]; ring)
  · have hq : Infra.Quad y ≠ 0 := Infra.quad_ne_zero_infra y h
    refine ⟨?_, ?_, ?_⟩
    · unfold Infra.Inv; exact exceptIf_ok _ _ _ h
    · unfold Infra.Quo
      rw [exceptIf_ok _ _ _ h]
      congr 1
      rw [Infra.eq_iff_infra]
      constructor <;>
        (simp only [Infra.Mul, Infra.Conj, Infra.invVal]
         field_simp; try ring)
    · rw [Infra.eq_iff_infra]
      constructor <;> (simp only [Infra.Mul]; ring)
  · have hq : Hamilton.Quad y ≠ 0 := ne_of_gt (Hamilton.quad_pos_ham y h)
    have hc : ¬ Hamilton.Equals y Hamilton.zero = true :=
      fun hc => h ((Hamilton.equals_iff_ham _ _).mp hc)
    constructor
    · unfold Hamilton.QuoL
      rw [exceptIf_ok _ _ _ hc]
      congr 1
      rw [Hamilton.eq_iff_ham]
      constructor <;>
        (rw [Cx.eq_iff_cx]; constructor <;>
          (simp only [Hamilton.Mul, Hamilton.Conj, Hamilton.invVal, Cx.Mul,
             Cx.Conj, Cx.Add, Cx.Sub, Cx.Neg]
           field_simp; try ring))
    · unfold Hamilton.QuoR
      rw [exceptIf_ok _ _ _ hc]
      congr 1
      rw [Hamilton.eq_iff_ham]
      constructor <;>
        (rw [Cx.eq_iff_cx]; constructor <;>
          (simp only [Hamilton.Mul, Hamilton.Conj, Hamilton.invVal, Cx.Mul,
             Cx.Conj, Cx.Add, Cx.Sub, Cx.Neg]
           field_simp; try ring))
  · have hq : Cockle.Quad y ≠ 0 := Cockle.quad_ne_zero_cockle y h
    constructor
    · unfold Cockle.QuoL
      rw [exceptIf_ok _ _ _ h]
      congr 1
      rw [Cockle.eq_iff_cockle]
      constructor <;>
        (rw [Cx.eq_iff_cx]; constructor <;>
          (simp only [Cockle.Mul, Cockle.Conj, Cockle.invVal, Cx.Mul,
             Cx.Conj, Cx.Add, Cx.Sub, Cx.Neg]
           field_simp; try ring))
    · unfold Cockle.QuoR
      rw [exceptIf_ok _ _ _ h]
      congr 1
      rw [Cockle.eq_iff_cockle]
      constructor <;>
        (rw [Cx.eq_iff_cx]; constructor <;>
          (simp only [Cockle.Mul, Cockle.Conj, Cockle.invVal, Cx.Mul,
             Cx.Conj, Cx.Add, Cx.Sub, Cx.Neg]
           field_simp; try ring))
  · have hq : Supra.Quad y ≠ 0 := Supra.quad_ne_zero_supra y h
    constructor
    · unfold Supra.QuoL
      rw [exceptIf_ok _ _ _ h]
      congr 1
      rw [Supra.eq_iff_supra]
      constructor <;>
        (rw [Infra.eq_iff_infra]; constructor <;>
          (simp only [Supra.Mul, Supra.Conj, Supra.invVal, Infra.Mul,
             Infra.Conj, Infra.Add, Infra.Sub, Infra.Neg]
           field_simp [hq]; try ring))
    · unfold Supra.QuoR
      rw [exceptIf_ok _ _ _ h]
      congr 1
      rw [Supra.eq_iff_supra]
      constructor <;>
        (rw [Infra.eq_iff_infra]; constructor <;>
          (simp only [Supra.Mul, Supra.Conj, Supra.invVal, Infra.Mul,
             Infra.Conj, Infra.Add, Infra.Sub, Infra.Neg]
           field_simp [hq]; try ring))
  · refine ⟨⟨⟨0, 1⟩, ⟨0, 0⟩⟩, ⟨⟨0, 0⟩, ⟨1, 0⟩⟩, ?_, ?_⟩
    · norm_num [Hamilton.zero, Cx.zero, Hamilton.eq_iff_ham, Cx.eq_iff_cx]
    · have hc : ¬ Hamilton.Equals ⟨⟨0, 0⟩, ⟨1, 0⟩⟩ Hamilton.zero = true := by
        rw [Hamilton.equals_iff_ham]
        norm_num [Hamilton.zero, Cx.zero, Hamilton.eq_iff_ham, Cx.eq_iff_cx]
      have h1 : Hamilton.QuoL ⟨⟨0, 1⟩, ⟨0, 0⟩⟩ ⟨⟨0, 0⟩, ⟨1, 0⟩⟩ =
          .ok ⟨⟨0, 0⟩, ⟨0, 1⟩⟩ := by
        unfold Hamilton.QuoL
        rw [exceptIf_ok _ _ _ hc]
        congr 1
        rw [Hamilton.eq_iff_ham]
        constructor <;> (rw [Cx.eq_iff_cx]; constructor <;>
          norm_num [Hamilton.Mul, Hamilton.Conj, Hamilton.Quad, Cx.Mul,
            Cx.Conj, Cx.Add, Cx.Sub, Cx.Neg, Cx.Quad])
      have h2 : Hamilton.QuoR ⟨⟨0, 1⟩, ⟨0, 0⟩⟩ ⟨⟨0, 0⟩, ⟨1, 0⟩⟩ =
          .ok ⟨⟨0, 0⟩, ⟨0, -1⟩⟩ := by
        unfold Hamilton.QuoR
        rw [exceptIf_ok _ _ _ hc]
        congr 1
        rw [Hamilton.eq_iff_ham]
        constructor <;> (rw [Cx.eq_iff_cx]; constructor <;>
          norm_num [Hamilton.Mul, Hamilton.Conj, Hamilton.Quad, Cx.Mul,
            Cx.Conj, Cx.Add, Cx.Sub, Cx.Neg, Cx.Quad])
      rw [h1, h2]
      norm_num [Hamilton.eq_iff_ham, Cx.eq_iff_cx]

/-- Witness for C7 at concrete invertible divisors in all six algebras. -/
theorem C7_quotients_via_inverse_witness :
    Cx.Quo ⟨1, 1⟩ ⟨3, 4⟩ = .ok (Cx.Mul ⟨1, 1⟩ (Cx.invVal ⟨3, 4⟩)) ∧
    Perplex.Quo ⟨1, 0⟩ ⟨2, 1⟩ =
      .ok (Perplex.Mul ⟨1, 0⟩ (Perplex.invVal ⟨2, 1⟩)) ∧
    Infra.Quo ⟨1, 0⟩ ⟨1, 5⟩ = .ok (Infra.Mul ⟨1, 0⟩ (Infra.invVal ⟨1, 5⟩)) ∧
    Hamilton.QuoL ⟨⟨0, 1⟩, ⟨0, 0⟩⟩ ⟨⟨2, 0⟩, ⟨0, 0⟩⟩ =
      .ok (Hamilton.Mul (Hamilton.invVal ⟨⟨2, 0⟩, ⟨0, 0⟩⟩)
        ⟨⟨0, 1⟩, ⟨0, 0⟩⟩) ∧
    Cockle.QuoR ⟨⟨0, 1⟩, ⟨0, 0⟩⟩ ⟨⟨2, 0⟩, ⟨1, 0⟩⟩ =
      .ok (Cockle.Mul ⟨⟨0, 1⟩, ⟨0, 0⟩⟩ (Cockle.invVal ⟨⟨2, 0⟩, ⟨1, 0⟩⟩)) ∧
    Supra.QuoL ⟨⟨0, 1⟩, ⟨0, 0⟩⟩ ⟨⟨1, 0⟩, ⟨0, 0⟩⟩ =
      .ok (Supra.Mul (Supra.invVal ⟨⟨1, 0⟩, ⟨0, 0⟩⟩) ⟨⟨0, 1⟩, ⟨0, 0⟩⟩) :=
  ⟨(C7_quotients_via_inverse.1 ⟨1, 1⟩ ⟨3, 4⟩
      (by norm_num [Cx.zero, Cx.eq_iff_cx])).2.1,
   (C7_quotients_via_inverse.2.1 ⟨1, 0⟩ ⟨2, 1⟩
      (by norm_num [Perplex.IsZeroDiv])).2.1,
   (C7_quotients_via_inverse.2.2.1 ⟨1, 0⟩ ⟨1, 5⟩
      (by norm_num [Infra.IsZeroDiv])).2.1,
   (C7_quotients_via_inverse.2.2.2.1 ⟨⟨0, 1⟩, ⟨0, 0⟩⟩ ⟨⟨2, 0⟩, ⟨0, 0⟩⟩
      (by norm_num [Hamilton.zero, Cx.zero, Hamilton.eq_iff_ham, Cx.eq_iff_cx])).1,
   (C7_quotients_via_inverse.2.2.2.2.1 ⟨⟨0, 1⟩, ⟨0, 0⟩⟩ ⟨⟨2, 0⟩, ⟨1, 0⟩⟩
      (by norm_num [Cockle.IsZeroDiv, Cx.Quad])).2,
   (C7_quotients_via_inverse.2.2.2.2.2.1 ⟨⟨0, 1⟩, ⟨0, 0⟩⟩ ⟨⟨1, 0⟩, ⟨0, 0⟩⟩
      (by norm_num [Supra.IsZeroDiv, Infra.IsZeroDiv])).1⟩

end Bigfloat
